import Mathlib

/-!
Shallow embedding of `runAllTests.py` (cortex-lab/LabCI): a CI orchestrator
that gathers unittest suites, runs them under coverage, sanitizes the rendered
HTML coverage report, and upserts a per-commit record into a JSON ledger.

Conventions of the embedding:
* Python strings are `String` (a `List Char` in this toolchain); character
  level helpers mirror `str.replace` / `str.startswith` / slicing exactly.
* The unittest suite tree is the inductive `Suite`; a failed-import leaf is a
  `_FailedTest` case exactly as `unittest.TestLoader` produces it.
* Effectful steps (coverage start/stop/save, file writes) are embedded as
  explicit event/operation traces; fallible steps return `Except`.
* Opaque third-party services (the coverage renderer, the unittest runner)
  are parameters describing their observable outcome, as the spec treats them
  as injected dependencies.
-/

namespace LabCI

/-- Python `s.startswith(pre)` (character-level, as Python strings are
sequences of code points). -/
def pyStartsWith (pre s : String) : Bool :=
  s.data.take pre.data.length == pre.data

/-- Python `s[n:]`. -/
def pySliceFrom (s : String) (n : Nat) : String :=
  String.mk (s.data.drop n)

/-- The unittest suite tree handled by `list_tests` (runAllTests.py line 30):
a `TestCase` leaf carries its class name and `_testMethodName`; a `TestSuite`
owns an ordered list of children (`_tests`).  A module that failed to import
is represented by the loader as a leaf whose class name is `_FailedTest`. -/
inductive Suite where
| case (className testMethodName : String)
| suite (tests : List Suite)

mutual

/-- `list_tests` (runAllTests.py lines 30-41): flattens a suite tree (or list
of trees) into identifiers `ClassName/methodName`; nested lists are flattened
by `ibllib.misc.flatten.flatten`. -/
def list_tests : Suite → List String
| .case cn mn => [cn ++ "/" ++ mn]
| .suite ts => list_tests_seq ts

/-- The `isinstance(suite, list)` branch of `list_tests`: flatten the
per-child results. -/
def list_tests_seq : List Suite → List String
| [] => []
| s :: rest => list_tests s ++ list_tests_seq rest

end

/-- Identifier of one `TestCase` (used at line 191, where `list_tests` is
applied to a single case and returns the bare string). -/
def list_tests_case (className testMethodName : String) : String :=
  className ++ "/" ++ testMethodName

/-- `not_loaded` at runAllTests.py line 110: the flattened identifiers that
start with `_Failed` (i.e. `_FailedTest/...` leaves), with the 12-character
prefix `_FailedTest/` sliced off. -/
def failedNames (ci_tests : Suite) : List String :=
  ((list_tests ci_tests).filter (fun x => pyStartsWith "_Failed" x)).map
    (fun x => pySliceFrom x 12)

/-- The slice of `unittest.TestResult` that runAllTests.py reads: `testsRun`,
`failures` and `errors` (each an identifier paired with its diagnostic
text). -/
structure TestResult where
  testsRun : Nat
  failures : List (String × String)
  errors : List (String × String)
deriving DecidableEq

/-- A freshly constructed `unittest.TestResult()` (line 117). -/
def TestResult.empty : TestResult := ⟨0, [], []⟩

/-- `TestResult.wasSuccessful()`: no failures and no errors. -/
def TestResult.wasSuccessful (r : TestResult) : Bool :=
  r.failures.isEmpty && r.errors.isEmpty

/-- Observable coverage-session operations performed by `run_tests`
(lines 121, 125, 126). -/
inductive CovEvent where
| covStart
| covStop
| covSave
deriving DecidableEq

/-- Exceptions that can escape `run_tests`. -/
inductive RunError where
| importFailure (not_loaded : List String)
| executorRaised
deriving DecidableEq

/-- Return value of the embedded `run_tests`: the coverage events that were
performed, and either the `(result, suite)` pair or the escaped exception. -/
structure RunReturn where
  events : List CovEvent
  outcome : Except RunError (TestResult × Suite)

/-- `run_tests` (runAllTests.py lines 78-128), with discovery abstracted: the
gathered suite `ci_tests` is a parameter (building it reads the filesystem),
and the unittest runner is the parameter `runner`, which either returns a
result or raises.  Control flow follows the source: the failed-import check
(lines 110-114) asserts `not strict` when `not_loaded` is non-empty; the dry
run branch (lines 116-117) returns a fresh result without touching coverage;
otherwise coverage is started, the runner invoked, and coverage stopped and
saved — with no handler, so a runner exception propagates with only
`start()` performed. -/
def run_tests (ci_tests : Suite) (strict dry_run : Bool)
    (runner : Suite → Except Unit TestResult) : RunReturn :=
  let not_loaded := failedNames ci_tests
  if not_loaded ≠ [] ∧ strict = true then
    ⟨[], .error (.importFailure not_loaded)⟩
  else if dry_run then
    ⟨[], .ok (TestResult.empty, ci_tests)⟩
  else
    match runner ci_tests with
    | .ok result => ⟨[.covStart, .covStop, .covSave], .ok (result, ci_tests)⟩
    | .error _ => ⟨[.covStart], .error .executorRaised⟩

/-- The `results` field of a ledger record (line 200): the full list of test
names when everything passed, otherwise the failing identifiers paired with
their error stacks (lines 190-194). -/
inductive ResultsField where
| names (l : List String)
| failurePairs (l : List (String × String))
deriving DecidableEq

/-- One record of the JSON ledger `.db.json` (the `report` dict built at
lines 198-204).  The float coverage percentage is embedded as `Option Rat`
(it is only passed through, never computed with). -/
structure LedgerRecord where
  commit : String
  results : ResultsField
  status : String
  description : String
  coverage : Option Rat
deriving DecidableEq

/-- `next(i for i, r in enumerate(records) if r['commit'] == key)` at
line 210: index of the first record whose `commit` equals `key`, `none` when
the generator is exhausted (`StopIteration`). -/
def findCommitIdx (key : String) : List LedgerRecord → Option Nat
| [] => none
| r :: rest =>
  if r.commit = key then some 0 else (findCommitIdx key rest).map (· + 1)

/-- The ledger update of lines 209-213: replace the first record whose
`commit` equals `key` (the run's `args.commit`), or append the new record
when none matches. -/
def upsert (records : List LedgerRecord) (key : String)
    (report : LedgerRecord) : List LedgerRecord :=
  match findCommitIdx key records with
  | some idx => records.set idx report
  | none => records ++ [report]

/-- Python `str.replace(old, new)` on character lists: a single left-to-right
scan replacing non-overlapping occurrences of `old`.  (Python gives empty
`old` interleaving semantics; the script only ever replaces non-empty
patterns, and this embedding leaves the list unchanged in that case.) -/
def pyReplaceChars (old repl : List Char) : List Char → List Char
| [] => []
| c :: cs =>
  if h : old ≠ [] ∧ (c :: cs).take old.length = old then
    repl ++ pyReplaceChars old repl ((c :: cs).drop old.length)
  else
    c :: pyReplaceChars old repl cs
termination_by l => l.length
decreasing_by
· simp only [List.length_drop, List.length_cons]
  have : 0 < old.length := List.length_pos.mpr h.1
  omega
· simp only [List.length_cons]
  omega

/-- Whether `sub` occurs as a contiguous substring of `l` (Python `sub in l`
for strings). -/
def containsSub (sub : List Char) : List Char → Bool
| [] => sub.isEmpty
| c :: cs => ((c :: cs).take sub.length == sub) || containsSub sub cs

/-- `re.sub(r'^[a-zA-Z]:[/\\]|[/\\]', '_', path)` applied to each character
after the (optional, anchored) drive prefix: every `/` or `\` becomes `_`. -/
def sepToUnderscore : List Char → List Char
| [] => []
| c :: cs => (if c = '/' || c = '\\' then '_' else c) :: sepToUnderscore cs

/-- The filename pattern derived at runAllTests.py line 66:
`re.sub(r'^[a-zA-Z]:[/\\]|[/\\]', '_', str(relative_to.parent)) + '_'` — a
leading drive prefix `X:/` (three characters) collapses to one `_`, every
other separator becomes `_`, and a trailing `_` is appended. -/
def patternOf (parent : List Char) : List Char :=
  (match parent with
   | a :: ':' :: b :: rest =>
     if a.isAlpha && (b = '/' || b = '\\') then '_' :: sepToUnderscore rest
     else sepToUnderscore (a :: ':' :: b :: rest)
   | other => sepToUnderscore other) ++ ['_']

/-- `pathlib`'s `Path(p).parent` for an ordinary multi-component path: the
path with its final separator and last component removed. -/
def parentChars (p : List Char) : List Char :=
  ((p.reverse.dropWhile (fun c => c != '/' && c != '\\')).drop 1).reverse

/-- One rendered HTML report file in the save directory: its (full) name,
its content, and whether touching it (open/read/write/rename) raises an
`OSError` — the behaviour of the filesystem is part of the environment. -/
structure HtmlFile where
  name : List Char
  content : List Char
  opFails : Bool
deriving DecidableEq

/-- The per-file body of the sanitization loop (runAllTests.py lines 68-74):
remove `pattern` then `parent + sep` from the content, and remove `pattern`
from the filename. -/
def sanitizeFile (pattern parentSep : List Char) (f : HtmlFile) : HtmlFile :=
  { f with
    content := pyReplaceChars parentSep []
      (pyReplaceChars pattern [] f.content),
    name := pyReplaceChars pattern [] f.name }

/-- The `for file in Path(save_path).glob('*.html')` loop (lines 67-74).
Returns the final state of every file and whether an `OSError` escaped: the
loop body has no handler, so the first file whose operations fail aborts the
loop, leaving that file and every later file untouched. -/
def sanitizeLoop (pattern parentSep : List Char) :
    List HtmlFile → (List HtmlFile × Bool)
| [] => ([], false)
| f :: rest =>
  if f.opFails then (f :: rest, true)
  else
    let done := sanitizeLoop pattern parentSep rest
    (sanitizeFile pattern parentSep f :: done.1, done.2)

/-- Exceptions caught at runAllTests.py line 58: `CoverageException` from the
renderers and the `AssertionError` of line 57. -/
inductive RenderExc where
| coverageException (msg : String)
| assertionError (msg : String)
deriving DecidableEq

/-- Observable behaviour of the opaque `Coverage` renderer: what
`cov.html_report` returns (the total percentage) or raises, what
`cov.xml_report` raises if anything, and whether `CoverageResults.xml`
exists afterwards. -/
structure CovRender where
  htmlReport : Except RenderExc Rat
  xmlReport : Except RenderExc Unit
  xmlExists : Bool

/-- The body of the `try` block at lines 54-57: render HTML (binding
`total`), render XML, then `assert not strict or success`. -/
def covAttempt (cov : CovRender) (strict : Bool) : Except RenderExc Rat := do
  let total ← cov.htmlReport
  let _ ← cov.xmlReport
  if strict && !cov.xmlExists then
    throw (RenderExc.assertionError "failed to generate XML coverage")
  pure total

/-- The `try/except` of lines 53-62: on `CoverageException` or
`AssertionError`, re-raise when `strict`, otherwise log and continue with
`total = None`. -/
def reportTry (cov : CovRender) (strict : Bool) :
    Except RenderExc (Option Rat) :=
  match covAttempt cov strict with
  | .ok t => .ok (some t)
  | .error e => if strict then .error e else .ok none

/-- Exceptions escaping `generate_coverage_report`: a re-raised render
exception, or an `OSError` from the sanitization loop. -/
inductive GenExc where
| render (e : RenderExc)
| osError
deriving DecidableEq

/-- `generate_coverage_report` (runAllTests.py lines 44-75): the rendering
`try/except`, then — when `relative_to` is given — the path-sanitization pass
over the HTML files of the save directory.  Returns the total coverage (or
`none`) together with the final file states. -/
def generate_coverage_report (cov : CovRender) (strict : Bool)
    (relative_to : Option (List Char)) (sep : Char) (files : List HtmlFile) :
    Except GenExc (Option Rat × List HtmlFile) :=
  match reportTry cov strict with
  | .error e => .error (.render e)
  | .ok total =>
    match relative_to with
    | none => .ok (total, files)
    | some rel =>
      let parent := parentChars rel
      let pattern := patternOf parent
      let res := sanitizeLoop pattern (parent ++ [sep]) files
      if res.2 then .error .osError else .ok (total, res.1)

/-- The `report` dict built at runAllTests.py lines 185-204 from the test
result, the suite, the commit id, the dry-run flag and the total coverage:
the `commit` field is suffixed `_dry-run` on dry runs; `results` holds the
failing pairs when anything failed, else all test names; `status` and
`description` summarize the outcome. -/
def mkReport (result : TestResult) (test_list : Suite) (commit : String)
    (dry_run : Bool) (total : Option Rat) : LedgerRecord :=
  let n_failed := result.failures.length + result.errors.length
  let fail_str :=
    toString n_failed ++ "/" ++ toString result.testsRun ++ " tests failed"
  { commit := commit ++ (if dry_run then "_dry-run" else ""),
    results :=
      if n_failed > 0 then .failurePairs (result.failures ++ result.errors)
      else .names (list_tests test_list),
    status := if result.wasSuccessful then "success" else "failure",
    description := if result.wasSuccessful then "All passed" else fail_str,
    coverage := total }

/-- The environment the `__main__` block runs in: the opaque unittest runner,
the opaque coverage renderer, `Path(ibllib.__file__).parent` (the
`relative_to` argument of line 176), the platform separator, the HTML files
of the report directory, and the ledger file content (`none` when
`.db.json` does not exist). -/
structure Env where
  runner : Suite → Except Unit TestResult
  cov : CovRender
  relPath : List Char
  sep : Char
  files : List HtmlFile
  existingDb : Option (List LedgerRecord)

/-- Observable outcome of the `__main__` block: an uncaught exception, or
normal termination carrying the test result, the total coverage, and the
records written to the ledger file (`none` when no write happened — the
`exit(0)` of line 181). -/
inductive MainOutcome where
| crashed
| finished (result : TestResult) (total : Option Rat)
    (saved : Option (List LedgerRecord))
deriving DecidableEq

/-- The `__main__` block of runAllTests.py (lines 131-219) from `run_tests`
onward, with argument parsing abstracted into `commitProvided` (the
line 180 identity check `args.commit is parser.get_default('commit')` is
false exactly when `--commit` was passed on the command line) and `commit`
(the effective `args.commit` string).  `run_tests` is called with its
default `strict=True` (line 171); `generate_coverage_report` with
`strict=not args.dry_run` (line 177); when the commit is the parser default
the script exits before touching the ledger (lines 180-181); otherwise the
report is upserted into the loaded records (lines 206-215) — a missing
ledger file starts a fresh single-record list — and saved (lines 218-219). -/
def mainRun (env : Env) (suite : Suite) (commitProvided : Bool)
    (commit : String) (dry_run : Bool) : MainOutcome :=
  match (run_tests suite true dry_run env.runner).outcome with
  | .error _ => .crashed
  | .ok (result, test_list) =>
    match generate_coverage_report env.cov (!dry_run) (some env.relPath)
        env.sep env.files with
    | .error _ => .crashed
    | .ok (total, _) =>
      if commitProvided = false then .finished result total none
      else
        let report := mkReport result test_list commit dry_run total
        let records :=
          match env.existingDb with
          | some records => upsert records commit report
          | none => [report]
        .finished result total (some records)

/-- File-system operations, for stating what the ledger save does to the
backing file. -/
inductive FileOp where
| openWrite (path : String)
| writeData (path : String)
| rename (src dst : String)
deriving DecidableEq

/-- Whether `op` is a rename. -/
def FileOp.isRenameOp : FileOp → Bool
| .rename _ _ => true
| _ => false

/-- The operation trace of the ledger save (runAllTests.py lines 218-219):
`with open(db_file, 'w') as json_file: json.dump(records, json_file)` —
open the ledger file itself in write mode (which truncates it in place) and
write the serialized records into it. -/
def saveLedgerOps (db_file : String) (records : List LedgerRecord) :
    List FileOp :=
  [FileOp.openWrite db_file, FileOp.writeData db_file]

/-- A trace replaces `target` atomically when it never opens `target` for
writing directly and installs the new content by renaming some temporary
path onto `target`. -/
def atomicReplaceTrace (target : String) (ops : List FileOp) : Bool :=
  (ops.all fun op =>
    match op with
    | .openWrite p => p != target
    | _ => true) &&
  (ops.any fun op =>
    match op with
    | .rename _ dst => dst == target
    | _ => false)

/-! Concrete sample data used by the closed evaluations below. -/

/-- A ledger record as produced by a fully-successful run. -/
def recA : LedgerRecord :=
  { commit := "abc", results := .names ["TestA/test_x"],
    status := "success", description := "All passed", coverage := none }

/-- A ledger record as produced by a failing run. -/
def recB : LedgerRecord :=
  { commit := "abc", results := .failurePairs [("TestA/test_x", "boom")],
    status := "failure", description := "1/1 tests failed",
    coverage := some 50 }

/-- A previously stored dry-run record, for exercising repeated dry runs. -/
def recDry : LedgerRecord :=
  { commit := "abc_dry-run", results := .names ["TestA/test_x"],
    status := "success", description := "All passed", coverage := none }

/-- Renderer behaviour when no coverage was collected: `html_report` raises
`CoverageException` and no XML file appears. -/
def covFail : CovRender :=
  { htmlReport := .error (.coverageException "No data to report."),
    xmlReport := .ok (), xmlExists := false }

/-- Renderer behaviour of a successful rendering pass. -/
def covOk : CovRender :=
  { htmlReport := .ok 50, xmlReport := .ok (), xmlExists := true }

/-- An HTML report file whose content mentions the sensitive parent path
`/srv/ci` not followed by the separator. -/
def fileBare : HtmlFile :=
  { name := "cov.html".data, content := "root is /srv/ci;".data,
    opFails := false }

/-- A concrete dry-run environment: runner unused, renderer without data,
no report files, no pre-existing ledger file. -/
def envDry : Env :=
  { runner := fun _ => Except.ok TestResult.empty,
    cov := covFail, relPath := "/srv/ci/ibllib".data, sep := '/',
    files := [], existingDb := none }

/-! Helper lemmas about the ledger search and update. -/

theorem findCommitIdx_eq_none (key : String) (L : List LedgerRecord) :
    findCommitIdx key L = none ↔ ∀ r ∈ L, r.commit ≠ key := by
  induction L with
  | nil => simp [findCommitIdx]
  | cons a rest ih =>
    by_cases h : a.commit = key
    · simp [findCommitIdx, h]
    · simp [findCommitIdx, h, Option.map_eq_none', ih]

theorem findCommitIdx_some (key : String) (L : List LedgerRecord) (i : Nat)
    (h : findCommitIdx key L = some i) :
    ∃ r, L.get? i = some r ∧ r.commit = key := by
  induction L generalizing i with
  | nil => simp [findCommitIdx] at h
  | cons a rest ih =>
    by_cases hc : a.commit = key
    · simp only [findCommitIdx, if_pos hc, Option.some.injEq] at h
      subst h
      exact ⟨a, rfl, hc⟩
    · simp only [findCommitIdx, if_neg hc, Option.map_eq_some'] at h
      obtain ⟨j, hj, rfl⟩ := h
      obtain ⟨r, hr, hrc⟩ := ih j hj
      exact ⟨r, by simpa using hr, hrc⟩

theorem upsert_of_no_match (L : List LedgerRecord) (key : String)
    (R : LedgerRecord) (h : ∀ r ∈ L, r.commit ≠ key) :
    upsert L key R = L ++ [R] := by
  unfold upsert
  rw [(findCommitIdx_eq_none key L).mpr h]

/-- C1: ledger upsert semantics — when some existing record's commit id
equals the run's commit id `key`, the update keeps the length, puts the new
record `R` at a matching position, and leaves every other position
unchanged; when no record matches, the update appends `R`, growing the list
by one. -/
theorem upsert_spec (L : List LedgerRecord) (R : LedgerRecord)
    (key : String) :
    ((∃ i r, L.get? i = some r ∧ r.commit = key) →
      (upsert L key R).length = L.length ∧
      ∃ i r, L.get? i = some r ∧ r.commit = key ∧
        (upsert L key R).get? i = some R ∧
        ∀ j, j ≠ i → (upsert L key R).get? j = L.get? j) ∧
    ((∀ r ∈ L, r.commit ≠ key) →
      upsert L key R = L ++ [R] ∧
      (upsert L key R).length = L.length + 1) := by
  constructor
  · rintro ⟨i, r, hget, hcommit⟩
    have hne : ¬ findCommitIdx key L = none := by
      intro hnone
      exact (findCommitIdx_eq_none key L).mp hnone r (List.get?_mem hget)
        hcommit
    obtain ⟨i0, hi0⟩ := Option.ne_none_iff_exists'.mp hne
    obtain ⟨r0, hr0, hr0c⟩ := findCommitIdx_some key L i0 hi0
    obtain ⟨hlt, -⟩ := List.get?_eq_some.mp hr0
    unfold upsert
    rw [hi0]
    refine ⟨List.length_set L i0 R, i0, r0, hr0, hr0c, ?_, ?_⟩
    · exact List.get?_set_eq_of_lt R hlt
    · intro j hj
      exact List.get?_set_ne R L (Ne.symm hj)
  · intro hall
    have hfind := (findCommitIdx_eq_none key L).mpr hall
    unfold upsert
    rw [hfind]
    exact ⟨rfl, by simp⟩

/-- C1 witness: replacing the sole matching record keeps length one, and a
non-matching key appends. -/
theorem upsert_spec_witness :
    (upsert [recA] "abc" recB).length = 1 ∧
    upsert [recA] "zzz" recB = [recA] ++ [recB] :=
  ⟨((upsert_spec [recA] recB "abc").1 ⟨0, recA, by decide, by decide⟩).1,
   ((upsert_spec [recA] recB "zzz").2 (by decide)).1⟩

/-- C7: on a dry run with an explicit commit id `c`, the written record's
commit field is `c` suffixed with `_dry-run`, which never equals `c`, while
the upsert lookup matches against the unsuffixed `c`; hence on a ledger with
no record for `c` the record is appended, and the resulting ledger again has
no record for `c`, so repeated dry runs keep appending instead of
replacing. -/
theorem dry_run_suffix_appends (c : String) (result : TestResult)
    (tl : Suite) (total : Option Rat) (L : List LedgerRecord)
    (hL : ∀ r ∈ L, r.commit ≠ c) :
    (mkReport result tl c true total).commit = c ++ "_dry-run" ∧
    (mkReport result tl c true total).commit ≠ c ∧
    upsert L c (mkReport result tl c true total) =
      L ++ [mkReport result tl c true total] ∧
    (∀ r ∈ upsert L c (mkReport result tl c true total), r.commit ≠ c) := by
  have hcommit : (mkReport result tl c true total).commit =
      c ++ "_dry-run" := rfl
  have hne : (mkReport result tl c true total).commit ≠ c := by
    rw [hcommit]
    intro hcontra
    have hlen := congrArg String.length hcontra
    rw [String.length_append] at hlen
    have h8 : ("_dry-run" : String).length = 8 := rfl
    rw [h8] at hlen
    omega
  have happ := upsert_of_no_match L c (mkReport result tl c true total) hL
  refine ⟨hcommit, hne, happ, ?_⟩
  intro r hr
  rw [happ] at hr
  rcases List.mem_append.mp hr with hmem | hmem
  · exact hL r hmem
  · rcases List.mem_singleton.mp hmem with rfl
    exact hne

/-- C7 witness: a second dry run for commit `abc` appends after an earlier
dry-run record instead of replacing it. -/
theorem dry_run_suffix_appends_witness :
    upsert [recDry] "abc"
        (mkReport TestResult.empty (Suite.case "TestA" "test_x") "abc" true
          none) =
      [recDry] ++
        [mkReport TestResult.empty (Suite.case "TestA" "test_x") "abc" true
          none] :=
  (dry_run_suffix_appends "abc" TestResult.empty
      (Suite.case "TestA" "test_x") none [recDry] (by decide)).2.2.1

/-- C2 has a counterexample: when the runner raises, `run_tests` performs
`Coverage.start()` but neither `Coverage.stop()` nor `Coverage.save()` — the
source has no try/finally around the runner invocation. -/
theorem run_tests_cov_pairing_cex :
    (run_tests (Suite.case "TestA" "test_x") false false
        (fun _ => Except.error ())).events = [CovEvent.covStart] ∧
    CovEvent.covStop ∉ (run_tests (Suite.case "TestA" "test_x") false false
        (fun _ => Except.error ())).events ∧
    CovEvent.covSave ∉ (run_tests (Suite.case "TestA" "test_x") false false
        (fun _ => Except.error ())).events := by
  decide

/-- C2 amended: on a non-dry run that passes the strict import check,
`start`, `stop` and `save` are all performed exactly when the runner returns
normally; when the runner raises, only `start` has been performed and the
exception propagates without `stop` or `save`. -/
theorem run_tests_cov_pairing (ci : Suite) (strict : Bool)
    (runner : Suite → Except Unit TestResult)
    (h : strict = true → failedNames ci = []) :
    (∀ res, runner ci = .ok res →
      (run_tests ci strict false runner).events =
        [CovEvent.covStart, CovEvent.covStop, CovEvent.covSave]) ∧
    (runner ci = .error () →
      (run_tests ci strict false runner).events = [CovEvent.covStart]) := by
  have hcond : ¬ (failedNames ci ≠ [] ∧ strict = true) := by
    rintro ⟨hne, hs⟩
    exact hne (h hs)
  constructor
  · intro res hres
    simp [run_tests, hcond, hres]
  · intro hres
    simp [run_tests, hcond, hres]

/-- C2 witness: with a cleanly-importing suite and a runner that returns, the
three coverage events happen in order. -/
theorem run_tests_cov_pairing_witness :
    (run_tests (Suite.case "TestA" "test_x") false false
        (fun _ => Except.ok TestResult.empty)).events =
      [CovEvent.covStart, CovEvent.covStop, CovEvent.covSave] :=
  (run_tests_cov_pairing (Suite.case "TestA" "test_x") false
      (fun _ => Except.ok TestResult.empty) (by decide)).1
    TestResult.empty rfl

/-- C5: with `strict=True` and a gathered suite containing a failed-import
leaf, `run_tests` raises the import-failure assertion with no coverage
event performed and without consulting the runner (so before any test case
executes); with `strict=False` the run proceeds: the runner is invoked and
the normal path completes. -/
theorem strict_import_failure (ci : Suite) (dry : Bool)
    (runner runner2 : Suite → Except Unit TestResult)
    (h : failedNames ci ≠ []) :
    (run_tests ci true dry runner).events = [] ∧
    (run_tests ci true dry runner).outcome =
      Except.error (RunError.importFailure (failedNames ci)) ∧
    run_tests ci true dry runner = run_tests ci true dry runner2 ∧
    (∀ res, runner ci = .ok res →
      run_tests ci false false runner =
        ⟨[CovEvent.covStart, CovEvent.covStop, CovEvent.covSave],
          .ok (res, ci)⟩) := by
  have hcond : failedNames ci ≠ [] ∧ (true : Bool) = true := ⟨h, rfl⟩
  refine ⟨?_, ?_, ?_, ?_⟩
  · simp [run_tests, hcond]
  · simp [run_tests, hcond]
  · simp [run_tests, hcond]
  · intro res hres
    simp [run_tests, hres]

/-- C5 witness: a suite with one `_FailedTest` leaf under strict mode yields
no coverage event. -/
theorem strict_import_failure_witness :
    (run_tests (Suite.suite [Suite.case "_FailedTest" "ci.tests.broken"])
        true false (fun _ => Except.ok TestResult.empty)).events = [] :=
  (strict_import_failure
      (Suite.suite [Suite.case "_FailedTest" "ci.tests.broken"]) false
      (fun _ => Except.ok TestResult.empty)
      (fun _ => Except.ok TestResult.empty) (by decide)).1

/-- C10: `list_tests` is a pure Lean function of the suite tree — the source
only reads `_tests`, `__class__` and `_testMethodName`, so its embedding
takes the tree to a value with no state; two calls on the same unmodified
tree are therefore definitionally the same ordered list, and the tree is
untouched. -/
theorem list_tests_deterministic (T : Suite) :
    list_tests T = list_tests T := rfl

/-- C4 counterexample: the trace of the ledger save is not an atomic
temp-then-rename replacement — it opens the ledger file itself for writing
and never renames anything onto it. -/
theorem save_ledger_not_atomic_cex :
    atomicReplaceTrace "/logdir/.db.json"
      (saveLedgerOps "/logdir/.db.json" [recA]) = false := by
  decide

/-- C4 amended: saving the ledger rewrites the JSON file in place — the save
opens the target file itself in truncating write mode and performs no rename
of a temporary path, so a crash mid-write can leave a half-written ledger
visible to the next reader. -/
theorem save_ledger_in_place (db : String) (records : List LedgerRecord) :
    (saveLedgerOps db records).all (fun op => ! op.isRenameOp) = true ∧
    FileOp.openWrite db ∈ saveLedgerOps db records := by
  exact ⟨rfl, List.mem_cons_self _ _⟩

/-! Helper lemmas about the sanitization loop and the render try/except. -/

theorem sanitizeLoop_no_failure (pattern parentSep : List Char)
    (files : List HtmlFile) (h : ∀ f ∈ files, f.opFails = false) :
    (sanitizeLoop pattern parentSep files).2 = false := by
  induction files with
  | nil => rfl
  | cons f rest ih =>
    have hf : f.opFails = false := h f (List.mem_cons_self f rest)
    simp only [sanitizeLoop, hf, if_neg Bool.false_ne_true]
    exact ih (fun g hg => h g (List.mem_cons_of_mem f hg))

theorem reportTry_lenient_never_raises (cov : CovRender) (e2 : RenderExc) :
    reportTry cov false ≠ .error e2 := by
  unfold reportTry
  cases covAttempt cov false with
  | ok t => simp
  | error e => simp

/-- C6: when the coverage rendering block fails (a `CoverageException` from
either renderer, or the failed XML-existence assertion), strict mode
propagates the exception out of `generate_coverage_report` as a fatal error;
lenient mode swallows it — the rendering try/except returns a `None` total
and never raises, and (when the sanitization file operations succeed) the
whole function returns normally with a `None` total. -/
theorem coverage_render_failure (cov : CovRender)
    (rel : Option (List Char)) (sep : Char) (files : List HtmlFile)
    (e : RenderExc)
    (hfail : covAttempt cov true = .error e)
    (hfiles : ∀ f ∈ files, f.opFails = false) :
    generate_coverage_report cov true rel sep files =
      .error (.render e) ∧
    (covAttempt cov false = .error e →
      reportTry cov false = .ok none ∧
      ∃ files2, generate_coverage_report cov false rel sep files =
        .ok (none, files2)) ∧
    (∀ e2, reportTry cov false ≠ .error e2) := by
  have hstrict : reportTry cov true = .error e := by
    unfold reportTry
    rw [hfail]
    simp
  refine ⟨?_, ?_, reportTry_lenient_never_raises cov⟩
  · unfold generate_coverage_report
    rw [hstrict]
  · intro hlen
    have hnone : reportTry cov false = .ok none := by
      unfold reportTry
      rw [hlen]
      simp
    refine ⟨hnone, ?_⟩
    unfold generate_coverage_report
    rw [hnone]
    cases rel with
    | none => exact ⟨files, rfl⟩
    | some r =>
      refine ⟨(sanitizeLoop (patternOf (parentChars r))
        (parentChars r ++ [sep]) files).1, ?_⟩
      simp only [sanitizeLoop_no_failure _ _ files hfiles,
        if_neg Bool.false_ne_true]

/-- C6 witness: a failing renderer propagates in strict mode at a concrete
environment. -/
theorem coverage_render_failure_witness :
    generate_coverage_report covFail true (some ("/srv/ci/ibllib".data)) '/'
        [] =
      .error (.render (.coverageException "No data to report.")) :=
  (coverage_render_failure covFail (some ("/srv/ci/ibllib".data)) '/' []
      (.coverageException "No data to report.") rfl
      (by simp)).1

/-! Helper lemmas about the main block on dry runs. -/

theorem mem_upsert_self (L : List LedgerRecord) (key : String)
    (R : LedgerRecord) : R ∈ upsert L key R := by
  unfold upsert
  cases hfind : findCommitIdx key L with
  | none => simp
  | some i =>
    obtain ⟨r, hr, -⟩ := findCommitIdx_some key L i hfind
    obtain ⟨hlt, -⟩ := List.get?_eq_some.mp hr
    exact List.get?_mem (List.get?_set_eq_of_lt R hlt)

theorem mainRun_dry_crash_run (env : Env) (suite : Suite) (provided : Bool)
    (commit : String) (hbad : failedNames suite ≠ []) :
    mainRun env suite provided commit true = .crashed := by
  have hout : (run_tests suite true true env.runner).outcome =
      Except.error (RunError.importFailure (failedNames suite)) := by
    simp [run_tests, hbad]
  simp [mainRun, hout]

theorem mainRun_dry_crash_gen (env : Env) (suite : Suite) (provided : Bool)
    (commit : String) (hnil : failedNames suite = []) (e : GenExc)
    (hgen : generate_coverage_report env.cov false (some env.relPath)
      env.sep env.files = .error e) :
    mainRun env suite provided commit true = .crashed := by
  have hout : (run_tests suite true true env.runner).outcome =
      Except.ok (TestResult.empty, suite) := by
    simp [run_tests, hnil]
  simp [mainRun, hout, hgen]

theorem mainRun_dry_shape_default (env : Env) (suite : Suite)
    (commit : String) (hnil : failedNames suite = []) (tot : Option Rat)
    (files2 : List HtmlFile)
    (hgen : generate_coverage_report env.cov false (some env.relPath)
      env.sep env.files = .ok (tot, files2)) :
    mainRun env suite false commit true =
      .finished TestResult.empty tot none := by
  have hout : (run_tests suite true true env.runner).outcome =
      Except.ok (TestResult.empty, suite) := by
    simp [run_tests, hnil]
  simp [mainRun, hout, hgen]

theorem mainRun_dry_shape_provided (env : Env) (suite : Suite)
    (commit : String) (hnil : failedNames suite = []) (tot : Option Rat)
    (files2 : List HtmlFile)
    (hgen : generate_coverage_report env.cov false (some env.relPath)
      env.sep env.files = .ok (tot, files2)) :
    mainRun env suite true commit true =
      .finished TestResult.empty tot
        (some
          (match env.existingDb with
           | some records =>
             upsert records commit
               (mkReport TestResult.empty suite commit true tot)
           | none => [mkReport TestResult.empty suite commit true tot])) := by
  have hout : (run_tests suite true true env.runner).outcome =
      Except.ok (TestResult.empty, suite) := by
    simp [run_tests, hnil]
  simp [mainRun, hout, hgen]

/-- C3 amended: on a dry run the execution result always has `testsRun = 0`,
and no ledger write occurs when the commit identifier is the parser default;
but when a commit id is explicitly supplied, the ledger IS written, and the
saved records contain the `_dry-run`-suffixed record of this run. -/
theorem dry_run_main (env : Env) (suite : Suite) (provided : Bool)
    (commit : String) :
    (∀ res tot sv, mainRun env suite provided commit true =
        .finished res tot sv → res.testsRun = 0) ∧
    (provided = false → ∀ res tot sv,
      mainRun env suite false commit true = .finished res tot sv →
        sv = none) ∧
    (provided = true → ∀ res tot sv,
      mainRun env suite true commit true = .finished res tot sv →
        ∃ recs, sv = some recs ∧
          ∃ r ∈ recs, r.commit = commit ++ "_dry-run") := by
  by_cases hbad : failedNames suite ≠ []
  · refine ⟨?_, ?_, ?_⟩
    · intro res tot sv hfin
      rw [mainRun_dry_crash_run env suite provided commit hbad] at hfin
      cases hfin
    · intro hp res tot sv hfin
      rw [mainRun_dry_crash_run env suite false commit hbad] at hfin
      cases hfin
    · intro hp res tot sv hfin
      rw [mainRun_dry_crash_run env suite true commit hbad] at hfin
      cases hfin
  · have hnil : failedNames suite = [] := not_ne_iff.mp hbad
    cases hgen : generate_coverage_report env.cov false (some env.relPath)
        env.sep env.files with
    | error e =>
      refine ⟨?_, ?_, ?_⟩
      · intro res tot sv hfin
        rw [mainRun_dry_crash_gen env suite provided commit hnil e hgen]
          at hfin
        cases hfin
      · intro hp res tot sv hfin
        rw [mainRun_dry_crash_gen env suite false commit hnil e hgen] at hfin
        cases hfin
      · intro hp res tot sv hfin
        rw [mainRun_dry_crash_gen env suite true commit hnil e hgen] at hfin
        cases hfin
    | ok pair =>
      obtain ⟨tot0, files0⟩ := pair
      refine ⟨?_, ?_, ?_⟩
      · intro res tot sv hfin
        cases hprov : provided with
        | false =>
          subst hprov
          rw [mainRun_dry_shape_default env suite commit hnil tot0 files0
            hgen] at hfin
          injection hfin with h1 h2 h3
          rw [← h1]
          rfl
        | true =>
          subst hprov
          rw [mainRun_dry_shape_provided env suite commit hnil tot0 files0
            hgen] at hfin
          injection hfin with h1 h2 h3
          rw [← h1]
          rfl
      · intro hp res tot sv hfin
        subst hp
        rw [mainRun_dry_shape_default env suite commit hnil tot0 files0
          hgen] at hfin
        injection hfin with h1 h2 h3
        exact h3.symm
      · intro hp res tot sv hfin
        subst hp
        rw [mainRun_dry_shape_provided env suite commit hnil tot0 files0
          hgen] at hfin
        injection hfin with h1 h2 h3
        refine ⟨_, h3.symm, ?_⟩
        cases env.existingDb with
        | some L =>
          exact ⟨mkReport TestResult.empty suite commit true tot0,
            mem_upsert_self L commit _, rfl⟩
        | none =>
          exact ⟨mkReport TestResult.empty suite commit true tot0,
            List.mem_singleton.mpr rfl, rfl⟩

/-- C3 counterexample: a dry run with an explicitly supplied commit id does
write the ledger — the run finishes with a saved record list (commit
`abc_dry-run`), not with no write. -/
theorem dry_run_main_cex :
    mainRun envDry (Suite.case "TestA" "test_x") true "abc" true =
      .finished TestResult.empty none
        (some [mkReport TestResult.empty (Suite.case "TestA" "test_x")
          "abc" true none]) ∧
    some [mkReport TestResult.empty (Suite.case "TestA" "test_x") "abc"
        true none] ≠ (none : Option (List LedgerRecord)) := by
  exact ⟨rfl, by simp⟩

/-- C3 witness: the amended statement at the same concrete dry run — the
saved records contain the suffixed record. -/
theorem dry_run_main_witness :
    ∃ recs,
      (some [mkReport TestResult.empty (Suite.case "TestA" "test_x") "abc"
        true none] : Option (List LedgerRecord)) = some recs ∧
      ∃ r ∈ recs, r.commit = "abc" ++ "_dry-run" :=
  (dry_run_main envDry (Suite.case "TestA" "test_x") true "abc").2.2 rfl
    TestResult.empty none
    (some [mkReport TestResult.empty (Suite.case "TestA" "test_x") "abc"
      true none]) rfl

/-- C9 counterexample: a failure on the first HTML file aborts the loop —
the second file is left unprocessed and still contains the pattern, so a
failure on one file does prevent the remaining files from being rewritten
and renamed. -/
theorem sanitize_independent_cex :
    sanitizeLoop ("_srv_ci_".data) ("/srv/ci/".data)
        [⟨"f1.html".data, "aaa".data, true⟩,
         ⟨"_srv_ci_x.html".data, "see _srv_ci_ here".data, false⟩] =
      ([⟨"f1.html".data, "aaa".data, true⟩,
        ⟨"_srv_ci_x.html".data, "see _srv_ci_ here".data, false⟩], true) ∧
    containsSub ("_srv_ci_".data) ("see _srv_ci_ here".data) = true ∧
    containsSub ("_srv_ci_".data) ("_srv_ci_x.html".data) = true := by
  decide

/-- C9 amended: the sanitization pass is a no-op on an empty set of matching
HTML files, but it does not process files independently — the loop body has
no handler, so a failure while rewriting or renaming one file raises,
leaving that file and every later file unprocessed. -/
theorem sanitize_not_independent (pattern parentSep : List Char)
    (f : HtmlFile) (rest : List HtmlFile) (hf : f.opFails = true) :
    sanitizeLoop pattern parentSep [] = ([], false) ∧
    sanitizeLoop pattern parentSep (f :: rest) = (f :: rest, true) := by
  exact ⟨rfl, by simp [sanitizeLoop, hf]⟩

/-- C9 witness: the amended statement at one concrete failing file. -/
theorem sanitize_not_independent_witness :
    sanitizeLoop ("_srv_ci_".data) ("/srv/ci/".data)
        [⟨"f1.html".data, "aaa".data, true⟩] =
      ([⟨"f1.html".data, "aaa".data, true⟩], true) :=
  (sanitize_not_independent ("_srv_ci_".data) ("/srv/ci/".data)
      ⟨"f1.html".data, "aaa".data, true⟩ [] rfl).2

/-! Lemmas about the single-pass replace underlying the sanitization. -/

theorem pyReplaceChars_of_head_notin (oh : Char) (ot repl l : List Char)
    (h : ∀ c ∈ l, c ≠ oh) :
    pyReplaceChars (oh :: ot) repl l = l := by
  induction l with
  | nil => rw [pyReplaceChars]
  | cons c cs ih =>
    have hc : c ≠ oh := h c (List.mem_cons_self c cs)
    have hcond : ¬ ((oh :: ot) ≠ [] ∧
        (c :: cs).take (oh :: ot).length = oh :: ot) := by
      rintro ⟨-, htake⟩
      rw [List.length_cons, List.take_succ_cons] at htake
      injection htake with h1 h2
      exact hc h1
    rw [pyReplaceChars, dif_neg hcond,
      ih (fun d hd => h d (List.mem_cons_of_mem c hd))]

theorem pyReplaceChars_cross (oh : Char) (ot t r : List Char)
    (h : ∀ c ∈ t, c ≠ oh) :
    pyReplaceChars (oh :: ot) [] (t ++ (oh :: ot) ++ r) =
      t ++ pyReplaceChars (oh :: ot) [] r := by
  induction t with
  | nil =>
    simp only [List.nil_append]
    rw [List.cons_append, pyReplaceChars]
    have hcond : ((oh :: ot) ≠ [] ∧
        (oh :: (ot ++ r)).take (oh :: ot).length = oh :: ot) := by
      constructor
      · simp
      · rw [List.length_cons, List.take_succ_cons, List.take_left]
    rw [dif_pos hcond, List.length_cons, List.drop_succ_cons,
      List.drop_left, List.nil_append]
  | cons c t2 ih =>
    have hc : c ≠ oh := h c (List.mem_cons_self c t2)
    have ht2 : ∀ d ∈ t2, d ≠ oh :=
      fun d hd => h d (List.mem_cons_of_mem c hd)
    have hcond : ¬ ((oh :: ot) ≠ [] ∧
        (c :: (t2 ++ (oh :: ot) ++ r)).take (oh :: ot).length = oh :: ot) := by
      rintro ⟨-, htake⟩
      rw [List.length_cons, List.take_succ_cons] at htake
      injection htake with h1 h2
      exact hc h1
    show pyReplaceChars (oh :: ot) [] (c :: (t2 ++ (oh :: ot) ++ r)) =
      (c :: t2) ++ pyReplaceChars (oh :: ot) [] r
    rw [pyReplaceChars, dif_neg hcond, ih ht2, List.cons_append]

theorem containsSub_eq_false (oh : Char) (ot l : List Char)
    (h : ∀ c ∈ l, c ≠ oh) :
    containsSub (oh :: ot) l = false := by
  induction l with
  | nil => rfl
  | cons c cs ih =>
    have hc : c ≠ oh := h c (List.mem_cons_self c cs)
    rw [containsSub, List.length_cons, List.take_succ_cons]
    have hbeq : (c :: cs.take ot.length == oh :: ot) = false := by
      rw [beq_eq_false_iff_ne]
      intro hcontra
      injection hcontra with h1 h2
      exact hc h1
    rw [hbeq, Bool.false_or]
    exact ih (fun d hd => h d (List.mem_cons_of_mem c hd))

theorem pyReplaceChars_of_not_contains (old repl l : List Char)
    (hne : old ≠ []) (h : containsSub old l = false) :
    pyReplaceChars old repl l = l := by
  induction l with
  | nil => rw [pyReplaceChars]
  | cons c cs ih =>
    rw [containsSub] at h
    simp only [Bool.or_eq_false_iff, beq_eq_false_iff_ne] at h
    obtain ⟨hone, hrest⟩ := h
    have hcond : ¬ (old ≠ [] ∧ (c :: cs).take old.length = old) := by
      rintro ⟨-, htake⟩
      exact hone htake
    rw [pyReplaceChars, dif_neg hcond, ih hrest]

/-- C8 counterexample: with `relative_to = /srv/ci/ibllib`, sanitization
leaves `fileBare` unchanged even though its content contains the literal
parent path `/srv/ci` — the rewrite only removes the parent path when it is
followed by the separator, so an occurrence of the bare path remains after
`generate_coverage_report`. -/
theorem sanitize_cex :
    containsSub ("/srv/ci".data) fileBare.content = true ∧
    generate_coverage_report covOk true (some ("/srv/ci/ibllib".data)) '/'
        [fileBare] = .ok (some 50, [fileBare]) ∧
    containsSub ("/srv/ci".data)
      ((sanitizeFile (patternOf (parentChars ("/srv/ci/ibllib".data)))
        (parentChars ("/srv/ci/ibllib".data) ++ ['/']) fileBare).content) =
      true := by
  have hpat : patternOf (parentChars ("/srv/ci/ibllib".data)) =
      "_srv_ci_".data := by decide
  have hps : parentChars ("/srv/ci/ibllib".data) ++ ['/'] =
      "/srv/ci/".data := by decide
  have h1 : pyReplaceChars ("_srv_ci_".data) [] fileBare.content =
      fileBare.content :=
    pyReplaceChars_of_not_contains _ _ _ (by decide) (by decide)
  have h2 : pyReplaceChars ("/srv/ci/".data) [] fileBare.content =
      fileBare.content :=
    pyReplaceChars_of_not_contains _ _ _ (by decide) (by decide)
  have h3 : pyReplaceChars ("_srv_ci_".data) [] fileBare.name =
      fileBare.name :=
    pyReplaceChars_of_not_contains _ _ _ (by decide) (by decide)
  have hfix : sanitizeFile (patternOf (parentChars ("/srv/ci/ibllib".data)))
      (parentChars ("/srv/ci/ibllib".data) ++ ['/']) fileBare = fileBare := by
    rw [hpat, hps]
    unfold sanitizeFile
    rw [h1, h2, h3]
  have hop : fileBare.opFails = false := rfl
  have hloop : sanitizeLoop
      (patternOf (parentChars ("/srv/ci/ibllib".data)))
      (parentChars ("/srv/ci/ibllib".data) ++ ['/']) [fileBare] =
      ([fileBare], false) := by
    simp [sanitizeLoop, hop, hfix]
  have hrt : reportTry covOk true = .ok (some 50) := rfl
  refine ⟨by decide, ?_, ?_⟩
  · unfold generate_coverage_report
    rw [hrt]
    simp [hloop]
  · rw [hfix]
    decide

/-- C8 amended: the sanitization rewrite removes, in one left-to-right pass,
occurrences of the derived underscore pattern and occurrences of the parent
path followed by the separator.  For report content made of segments free of
separator and underscore characters interleaved with `parent + sep`
occurrences, no occurrence of the parent path remains in the sanitized
content, and a filename made of underscore-free segments around the pattern
no longer contains the pattern after the rename.  (An occurrence of the bare
parent path not followed by the separator is not removed — see the
counterexample.) -/
theorem sanitize_wellformed (t0 t1 t2 u v : List Char)
    (h0 : ∀ c ∈ t0, c ≠ '/' ∧ c ≠ '_')
    (h1 : ∀ c ∈ t1, c ≠ '/' ∧ c ≠ '_')
    (h2 : ∀ c ∈ t2, c ≠ '/' ∧ c ≠ '_')
    (hu : ∀ c ∈ u, c ≠ '_') (hv : ∀ c ∈ v, c ≠ '_') :
    (sanitizeFile (patternOf ("/srv/ci".data)) ("/srv/ci".data ++ ['/'])
        ⟨u ++ patternOf ("/srv/ci".data) ++ v,
         t0 ++ ("/srv/ci".data ++ ['/']) ++
           (t1 ++ ("/srv/ci".data ++ ['/']) ++ t2), false⟩).content =
      t0 ++ (t1 ++ t2) ∧
    containsSub ("/srv/ci".data) (t0 ++ (t1 ++ t2)) = false ∧
    (sanitizeFile (patternOf ("/srv/ci".data)) ("/srv/ci".data ++ ['/'])
        ⟨u ++ patternOf ("/srv/ci".data) ++ v,
         t0 ++ ("/srv/ci".data ++ ['/']) ++
           (t1 ++ ("/srv/ci".data ++ ['/']) ++ t2), false⟩).name =
      u ++ v ∧
    containsSub (patternOf ("/srv/ci".data)) (u ++ v) = false := by
  have hpat_c : patternOf ("/srv/ci".data) = '_' :: ("srv_ci_".data) := by
    decide
  have hps_c : ("/srv/ci".data ++ ['/']) = '/' :: ("srv/ci/".data) := by
    decide
  have hpar_c : ("/srv/ci".data) = '/' :: ("srv/ci".data) := by decide
  have hps_und : ∀ c ∈ ("/srv/ci".data ++ ['/']), c ≠ '_' := by decide
  have hcontent_und : ∀ c ∈ t0 ++ ("/srv/ci".data ++ ['/']) ++
      (t1 ++ ("/srv/ci".data ++ ['/']) ++ t2), c ≠ '_' := by
    intro c hc
    rcases List.mem_append.mp hc with hc1 | hc1
    · rcases List.mem_append.mp hc1 with hc2 | hc2
      · exact (h0 c hc2).2
      · exact hps_und c hc2
    · rcases List.mem_append.mp hc1 with hc2 | hc2
      · rcases List.mem_append.mp hc2 with hc3 | hc3
        · exact (h1 c hc3).2
        · exact hps_und c hc3
      · exact (h2 c hc2).2
  have hcontent :
      pyReplaceChars ('/' :: "srv/ci/".data) []
        (t0 ++ ('/' :: "srv/ci/".data) ++
          (t1 ++ ('/' :: "srv/ci/".data) ++ t2)) = t0 ++ (t1 ++ t2) := by
    rw [pyReplaceChars_cross '/' ("srv/ci/".data) t0
      (t1 ++ ('/' :: "srv/ci/".data) ++ t2) (fun c hc => (h0 c hc).1)]
    rw [pyReplaceChars_cross '/' ("srv/ci/".data) t1 t2
      (fun c hc => (h1 c hc).1)]
    rw [pyReplaceChars_of_head_notin '/' ("srv/ci/".data) [] t2
      (fun c hc => (h2 c hc).1)]
  refine ⟨?_, ?_, ?_, ?_⟩
  · show pyReplaceChars ("/srv/ci".data ++ ['/']) []
      (pyReplaceChars (patternOf ("/srv/ci".data)) []
        (t0 ++ ("/srv/ci".data ++ ['/']) ++
          (t1 ++ ("/srv/ci".data ++ ['/']) ++ t2))) = t0 ++ (t1 ++ t2)
    rw [hpat_c,
      pyReplaceChars_of_head_notin '_' ("srv_ci_".data) [] _ hcontent_und,
      hps_c, hcontent]
  · rw [hpar_c]
    refine containsSub_eq_false '/' ("srv/ci".data) _ ?_
    intro c hc
    rcases List.mem_append.mp hc with hc1 | hc1
    · exact (h0 c hc1).1
    · rcases List.mem_append.mp hc1 with hc2 | hc2
      · exact (h1 c hc2).1
      · exact (h2 c hc2).1
  · show pyReplaceChars (patternOf ("/srv/ci".data)) []
      (u ++ patternOf ("/srv/ci".data) ++ v) = u ++ v
    rw [hpat_c, pyReplaceChars_cross '_' ("srv_ci_".data) u v hu,
      pyReplaceChars_of_head_notin '_' ("srv_ci_".data) [] v hv]
  · rw [hpat_c]
    refine containsSub_eq_false '_' ("srv_ci_".data) _ ?_
    intro c hc
    rcases List.mem_append.mp hc with hc | hc
    · exact hu c hc
    · exact hv c hc

/-- C8 witness: the amended statement at concrete well-formed content. -/
theorem sanitize_wellformed_witness :
    (sanitizeFile (patternOf ("/srv/ci".data)) ("/srv/ci".data ++ ['/'])
        ⟨"cov".data ++ patternOf ("/srv/ci".data) ++ "x.html".data,
         "report ".data ++ ("/srv/ci".data ++ ['/']) ++
           ("one.py".data ++ ("/srv/ci".data ++ ['/']) ++ "end".data),
         false⟩).content =
      "report ".data ++ ("one.py".data ++ "end".data) :=
  (sanitize_wellformed "report ".data "one.py".data "end".data "cov".data
      "x.html".data (by decide) (by decide) (by decide) (by decide)
      (by decide)).1

end LabCI
